import Mathlib

/-!
Verification of the IPv6 utility library (src/utils.ts) against its
natural-language specification.

The JavaScript code is shallowly embedded in Lean.  JavaScript strings are
modelled as lists of characters (JStr); JavaScript BigInt values, which are
non-negative throughout the library, are modelled as Nat; a JavaScript value
of type string-or-null is modelled as Option JStr; a computation that could
throw (BigInt applied to NaN) is modelled as an Option-valued function whose
none result marks the thrown exception.
-/

/-- Model of a JavaScript string: a list of characters. -/
abbrev JStr := List Char

/-- Abbreviation turning a Lean string literal into the JStr model. -/
def jstr (s : String) : JStr := s.toList

/-! ### JavaScript string primitives used by utils.ts -/

/-- Characters treated as whitespace by the model of String.prototype.trim
(the ASCII whitespace characters; the library is only ever fed ASCII). -/
def jsWhitespaceChars : List Char := [' ', '\t', '\n', '\r', '\x0b', '\x0c']

/-- Test for membership in jsWhitespaceChars. -/
def jsIsWhitespace (c : Char) : Bool := decide (c ∈ jsWhitespaceChars)

/-- Model of String.prototype.trim: drop whitespace from both ends. -/
def jsTrim (s : JStr) : JStr :=
  ((s.dropWhile jsIsWhitespace).reverse.dropWhile jsIsWhitespace).reverse

/-- Helper for jsSplit: prepend a character to the first piece of a split
result (the split of a non-empty string always has a first piece). -/
def consHead (c : Char) : List JStr → List JStr
  | [] => [[c]]
  | g :: gs => (c :: g) :: gs

/-- Model of String.prototype.split with a single-character separator:
splitting at every occurrence of the separator; splitting the empty string
yields one empty piece, exactly as in JavaScript. -/
def jsSplit (sep : Char) : JStr → List JStr
  | [] => [[]]
  | c :: cs => if c = sep then [] :: jsSplit sep cs else consHead c (jsSplit sep cs)

/-- Model of String.prototype.split with the two-character separator "::"
used by expandIPv6: occurrences are found left to right and do not overlap,
exactly as in JavaScript. -/
def jsSplitDoubleColon : JStr → List JStr
  | [] => [[]]
  | ':' :: ':' :: cs => [] :: jsSplitDoubleColon cs
  | c :: cs => consHead c (jsSplitDoubleColon cs)

/-- Model of Array.prototype.join with separator ":". -/
def joinColon : List JStr → JStr
  | [] => []
  | [g] => g
  | g :: gs => g ++ ':' :: joinColon gs

/-- Model of String.prototype.padStart(4, "0"). -/
def padStart4 (g : JStr) : JStr := List.replicate (4 - g.length) '0' ++ g

/-! ### Hexadecimal characters -/

/-- The character class of the validation regex in expandIPv6,
written 0-9a-fA-F there. -/
def hexDigitChars : List Char :=
  ['0', '1', '2', '3', '4', '5', '6', '7'] ++ ['8', '9'] ++
    ['a', 'b', 'c', 'd', 'e', 'f'] ++ ['A', 'B', 'C', 'D', 'E', 'F']

/-- Membership test for the hexadecimal character class. -/
def isHexDigit (c : Char) : Bool := decide (c ∈ hexDigitChars)

/-- Lowercase hexadecimal digits: the characters that can appear in a group
of an expanded address. -/
def lowerHexChars : List Char :=
  ['0', '1', '2', '3', '4', '5', '6', '7'] ++ ['8', '9'] ++
    ['a', 'b', 'c', 'd', 'e', 'f']

/-- Membership test for lowercase hexadecimal digits. -/
def isLowerHexDigit (c : Char) : Bool := decide (c ∈ lowerHexChars)

/-! ### expandIPv6 -/

/-- Model of the test of the validation regex of expandIPv6, which accepts
zero to four characters of the class 0-9a-fA-F.  In particular the empty
group passes, since the lower repetition bound of the regex is zero. -/
def groupRegexTest (g : JStr) : Bool := g.length ≤ 4 && g.all isHexDigit

/-- Embedding of expandIPv6 from src/utils.ts.  The input is trimmed and
split on the literal "::"; more than two pieces is an error; with exactly
two pieces the elided zero groups are re-inserted; the eight groups are then
validated against the regex and normalized by zero-padding to width four and
lower-casing.  The JavaScript null result is Option.none. -/
def expandIPv6 (address0 : JStr) : Option JStr :=
  let address := jsTrim address0
  let parts := jsSplitDoubleColon address
  if 2 < parts.length then none
  else
    let groupsOpt : Option (List JStr) :=
      match parts with
      | [p0, p1] =>
        let left := if p0 = [] then [] else jsSplit ':' p0
        let right := if p1 = [] then [] else jsSplit ':' p1
        if 8 < left.length + right.length then none
        else some (left ++ List.replicate (8 - (left.length + right.length)) ['0'] ++ right)
      | _ => some (jsSplit ':' address)
    match groupsOpt with
    | none => none
    | some groups =>
      if groups.length = 8 then
        if groups.all groupRegexTest then
          some (joinColon (groups.map (fun g => (padStart4 g).map Char.toLower)))
        else none
      else none

/-! ### compressIPv6 -/

/-- Model of the per-group simplification of compressIPv6: strip leading
zeros with the anchored regex, and map an emptied group back to "0". -/
def stripLeadingZeros (g : JStr) : JStr :=
  let s := g.dropWhile (· = '0')
  if s = [] then ['0'] else s

/-- One iteration of the zero-run scan of compressIPv6.  The state carries
the loop index i followed by the four mutable variables longestStart,
longestLen, currentStart and currentLen; the two start indices are JavaScript
numbers initialised to -1 and are therefore modelled as Int. -/
def scanStep : Nat × Int × Nat × Int × Nat → JStr → Nat × Int × Nat × Int × Nat
  | (i, longestStart, longestLen, currentStart, currentLen), g =>
    if g = ['0'] then
      if currentStart = -1 then (i + 1, longestStart, longestLen, (i : Int), 1)
      else (i + 1, longestStart, longestLen, currentStart, currentLen + 1)
    else
      if longestLen < currentLen then (i + 1, currentStart, currentLen, -1, 0)
      else (i + 1, longestStart, longestLen, -1, 0)

/-- The zero-run scan of compressIPv6: the for-loop followed by the final
check that promotes a run still open at the end of the sequence.  Returns
the pair (longestStart, longestLen). -/
def runScan (simplified : List JStr) : Int × Nat :=
  match simplified.foldl scanStep (0, -1, 0, -1, 0) with
  | (_, longestStart, longestLen, currentStart, currentLen) =>
    if longestLen < currentLen then (currentStart, currentLen)
    else (longestStart, longestLen)

/-- Embedding of compressIPv6 from src/utils.ts: simplify every group, find
the longest run of "0" groups (ties resolved by the scan order, i.e. the
earliest run wins because later runs must be strictly longer to replace the
recorded one), and elide that run when its length exceeds one. -/
def compressIPv6 (fullAddress : JStr) : JStr :=
  let groups := jsSplit ':' fullAddress
  let simplified := groups.map stripLeadingZeros
  let best := runScan simplified
  if 1 < best.2 then
    let before := simplified.take best.1.toNat
    let after := simplified.drop (best.1.toNat + best.2)
    if before.length = 0 && after.length = 0 then [':', ':']
    else if before.length = 0 then ':' :: ':' :: joinColon after
    else if after.length = 0 then joinColon before ++ [':', ':']
    else joinColon before ++ ':' :: ':' :: joinColon after
  else joinColon simplified

/-! ### IntegerBridge: ipv6ToBigInt and bigIntToIPv6 -/

/-- Numeric value of a character of the class 0-9a-fA-F. -/
def hexVal (c : Char) : Nat :=
  if '0' ≤ c ∧ c ≤ '9' then c.toNat - '0'.toNat
  else if 'a' ≤ c ∧ c ≤ 'f' then c.toNat - 'a'.toNat + 10
  else c.toNat - 'A'.toNat + 10

/-- Value of a string of hexadecimal digits, most significant first. -/
def parseHexDigits (ds : JStr) : Nat := ds.foldl (fun a c => 16 * a + hexVal c) 0

/-- Model of parseInt(s, 16) for the strings this library feeds it: the
value of the longest leading run of hexadecimal digits, and none for NaN
when that run is empty.  (The optional whitespace, sign and 0x prefix of
parseInt never occur here: every call site passes a group of a
colon-separated address string.) -/
def jsParseIntHex (s : JStr) : Option Nat :=
  let digits := s.takeWhile isHexDigit
  if digits = [] then none else some (parseHexDigits digits)

/-- One iteration of the fold of ipv6ToBigInt:
result = (result << 16n) | BigInt(parseInt(group, 16)).  BigInt applied to
NaN throws, which the model returns as none and propagates. -/
def bigIntStep (acc : Option Nat) (g : JStr) : Option Nat :=
  match acc, jsParseIntHex g with
  | some result, some v => some ((result <<< 16) ||| v)
  | _, _ => none

/-- Embedding of ipv6ToBigInt from src/utils.ts: split on ":" and fold the
groups most significant first. -/
def ipv6ToBigInt (fullAddress : JStr) : Option Nat :=
  (jsSplit ':' fullAddress).foldl bigIntStep (some 0)

/-- Digit character of a value below the radix, lowercase as produced by
the toString method of JavaScript numbers and BigInt values. -/
def jsDigitChar (d : Nat) : Char :=
  if d < 10 then Char.ofNat ('0'.toNat + d) else Char.ofNat ('a'.toNat + (d - 10))

/-- Digit-producing loop of the toString model.  The first argument is fuel
bounding the recursion depth; toString itself never exhausts it. -/
def natToStringAux (base : Nat) : Nat → Nat → JStr → JStr
  | 0, _, acc => acc
  | fuel + 1, n, acc =>
    let acc1 := jsDigitChar (n % base) :: acc
    if n < base then acc1 else natToStringAux base fuel (n / base) acc1

/-- Model of the toString method of a non-negative BigInt or number at a
given radix: digits of the value, most significant first, no leading
zeros, and "0" for zero. -/
def natToStringBase (base n : Nat) : JStr := natToStringAux base (n + 1) n []

/-- Model of BigInt.prototype.toString(16) for non-negative values. -/
def natToHex (n : Nat) : JStr := natToStringBase 16 n

/-- The eight iterations of the loop of bigIntToIPv6: each one prepends
(value & 0xffffn).toString(16).padStart(4, "0") to the group list and then
shifts value right by 16 bits. -/
def bigIntToIPv6Loop : Nat → Nat → List JStr → List JStr
  | 0, _, groups => groups
  | k + 1, value, groups =>
    bigIntToIPv6Loop k (value >>> 16) (padStart4 (natToHex (value &&& 0xffff)) :: groups)

/-- Embedding of bigIntToIPv6 from src/utils.ts. -/
def bigIntToIPv6 (value : Nat) : JStr := joinColon (bigIntToIPv6Loop 8 value [])

/-! ### CIDRMath: getNetworkAddress and getTotalAddresses -/

/-- Embedding of getNetworkAddress from src/utils.ts.  The prefix length is
a natural number: every call site among the verified entry points has
validated 0 <= prefixLength <= 128, so BigInt(128 - prefixLength) is the
natural-number subtraction.  The none result propagates the exception of
ipv6ToBigInt. -/
def getNetworkAddress (fullAddress : JStr) (prefixLength : Nat) : Option JStr :=
  match ipv6ToBigInt fullAddress with
  | none => none
  | some addressInt =>
    let mask := ((1 <<< prefixLength) - 1) <<< (128 - prefixLength)
    some (bigIntToIPv6 (addressInt &&& mask))

/-- Model of BigInt.prototype.toString() in decimal for non-negative
values, also used for the template interpolation of a JavaScript number. -/
def natToDec (n : Nat) : JStr := natToStringBase 10 n

/-- Embedding of getTotalAddresses from src/utils.ts: 2^(128 - prefixLength)
as a decimal string, replaced by the text 2^hostBits when it exceeds
1,000,000. -/
def getTotalAddresses (prefixLength : Nat) : JStr :=
  let hostBits := 128 - prefixLength
  let total := 1 <<< hostBits
  if 1000000 < total then '2' :: '^' :: natToDec hostBits
  else natToDec total

/-! ### RangeMatcher: isInCIDRRange -/

/-- Decimal digit characters. -/
def decDigitChars : List Char := ['0', '1', '2', '3', '4', '5', '6', '7', '8', '9']

/-- Membership test for decimal digits. -/
def isDecDigit (c : Char) : Bool := decide (c ∈ decDigitChars)

/-- Value of a string of decimal digits, most significant first. -/
def parseDecDigits (ds : JStr) : Nat := ds.foldl (fun a c => 10 * a + (c.toNat - '0'.toNat)) 0

/-- Model of parseInt(s, 10): skip leading whitespace, read an optional
sign, then the longest leading run of decimal digits; none models NaN when
that run is empty.  Trailing non-digit characters are ignored, exactly as
parseInt ignores them. -/
def jsParseInt10 (s : JStr) : Option Int :=
  let s1 := s.dropWhile jsIsWhitespace
  let signAndRest : Int × JStr :=
    match s1 with
    | '-' :: rest => (-1, rest)
    | '+' :: rest => (1, rest)
    | _ => (1, s1)
  let digits := signAndRest.2.takeWhile isDecDigit
  if digits = [] then none
  else some (signAndRest.1 * (parseDecDigits digits : Int))

/-- The result object of isInCIDRRange: an inRange flag and an optional
error message. -/
structure RangeResult where
  inRange : Bool
  error : Option JStr := none
deriving DecidableEq, Repr

/-- Error message of isInCIDRRange for a missing or empty prefix part. -/
def msgInvalidCIDR : JStr := jstr "Invalid CIDR notation. Use format: address/prefix"

/-- Error message of isInCIDRRange for a prefix outside 0..128 or NaN. -/
def msgPrefixRange : JStr := jstr "Prefix length must be between 0 and 128"

/-- Error message of isInCIDRRange for a target address that fails expansion. -/
def msgInvalidAddress : JStr := jstr "Invalid IPv6 address"

/-- Error message of isInCIDRRange for a range address that fails expansion. -/
def msgInvalidRangeAddress : JStr := jstr "Invalid IPv6 range address"

/-- Embedding of isInCIDRRange from src/utils.ts.  The destructuring of
cidrRange.split("/") binds the first piece to rangeAddress and the second to
prefixStr; a missing second piece is undefined, which like the empty string
is falsy, so both are modelled as the empty string rejected by the first
check.  The outer Option models the impossible BigInt(NaN) exception. -/
def isInCIDRRange (address cidrRange : JStr) : Option RangeResult :=
  let parts := jsSplit '/' cidrRange
  let rangeAddress := parts.headD []
  let prefixStr := (parts.get? 1).getD []
  if prefixStr = [] then some ⟨false, some msgInvalidCIDR⟩
  else
    match jsParseInt10 prefixStr with
    | none => some ⟨false, some msgPrefixRange⟩
    | some p =>
      if p < 0 ∨ 128 < p then some ⟨false, some msgPrefixRange⟩
      else
        match expandIPv6 address, expandIPv6 rangeAddress with
        | none, _ => some ⟨false, some msgInvalidAddress⟩
        | some _, none => some ⟨false, some msgInvalidRangeAddress⟩
        | some expandedAddress, some expandedRange =>
          match getNetworkAddress expandedAddress p.toNat,
                getNetworkAddress expandedRange p.toNat with
          | some addressNetwork, some rangeNetwork =>
            some ⟨decide (addressNetwork = rangeNetwork), none⟩
          | _, _ => none

/-! ### Validity predicates for expanded addresses -/

/-- A group of an expanded address: exactly four lowercase hexadecimal
digits. -/
def isExpandedGroup (g : JStr) : Bool := g.length = 4 && g.all isLowerHexDigit

/-- An expanded address: eight groups of four lowercase hexadecimal digits
separated by ":". -/
def isExpandedAddress (a : JStr) : Bool :=
  (jsSplit ':' a).length = 8 && (jsSplit ':' a).all isExpandedGroup

/-! ### Helper definitions for the verification -/

/-- Prepend a prefix to the first piece of a split result; used to state
how jsSplit acts on an appended string. -/
def glueHead (g : JStr) : List JStr → List JStr
  | [] => [g]
  | h :: t => (g ++ h) :: t

/-- The k least significant 16-bit hextets of a value, most significant
first: the arithmetic content of the loop of bigIntToIPv6. -/
def hextetList : Nat → Nat → List Nat
  | 0, _ => []
  | k + 1, v => hextetList k (v / 65536) ++ [v % 65536]

/-- Value of a list of hextets, most significant first: the arithmetic
content of the fold of ipv6ToBigInt. -/
def valNat (vs : List Nat) : Nat := vs.foldl (fun a v => a * 65536 + v) 0

/-! ### Specification-side definitions for the compression claim

These definitions follow the words of the specification (longest contiguous
run of "0" groups, ties broken by earliest start index, runs of length at
least 2) and are compared with the scan loop embedded from the source. -/

/-- The pattern of an address's simplified groups: which ones equal "0". -/
def zeroPattern (simplified : List JStr) : List Bool :=
  simplified.map (fun g => decide (g = ['0']))

/-- Length of the contiguous run of true entries starting at index s. -/
def runLenAt (bs : List Bool) (s : Nat) : Nat := ((bs.drop s).takeWhile id).length

/-- The specification's choice of run: scan every start index and keep the
one with the strictly greatest run length, so that the earliest start wins
among runs of equal length.  Returns (start, length); length 0 when the
sequence has no true entry. -/
def specBest (bs : List Bool) : Nat × Nat :=
  (List.range bs.length).foldl
    (fun best s => if best.2 < runLenAt bs s then (s, runLenAt bs s) else best) (0, 0)

/-- Boolean test that positions s, ..., s + l - 1 are all true. -/
def runAllTrue (bs : List Bool) (s l : Nat) : Bool := ((bs.drop s).take l).all id

/-- The proposition that a contiguous run of zero groups of length l starts
at index s (not necessarily maximal). -/
def zeroRunAt (bs : List Bool) (s l : Nat) : Prop :=
  1 ≤ l ∧ s + l ≤ bs.length ∧ runAllTrue bs s l = true

/-- The specification's assembly of the compressed text once the run to
elide is chosen: groups before the run, the marker "::", groups after the
run, with the three boundary cases of a run touching either end. -/
def elideAt (simplified : List JStr) (s l : Nat) : JStr :=
  let before := simplified.take s
  let after := simplified.drop (s + l)
  if before.length = 0 && after.length = 0 then [':', ':']
  else if before.length = 0 then ':' :: ':' :: joinColon after
  else if after.length = 0 then joinColon before ++ [':', ':']
  else joinColon before ++ ':' :: ':' :: joinColon after

/-- The scan step of compressIPv6 expressed on the boolean zero pattern of
the groups rather than on the groups themselves. -/
def scanStepB : Nat × Int × Nat × Int × Nat → Bool → Nat × Int × Nat × Int × Nat
  | (i, longestStart, longestLen, currentStart, currentLen), b =>
    if b then
      if currentStart = -1 then (i + 1, longestStart, longestLen, (i : Int), 1)
      else (i + 1, longestStart, longestLen, currentStart, currentLen + 1)
    else
      if longestLen < currentLen then (i + 1, currentStart, currentLen, -1, 0)
      else (i + 1, longestStart, longestLen, -1, 0)

/-- The zero-run scan expressed on the boolean zero pattern. -/
def runScanB (bs : List Bool) : Int × Nat :=
  match bs.foldl scanStepB (0, -1, 0, -1, 0) with
  | (_, longestStart, longestLen, currentStart, currentLen) =>
    if longestLen < currentLen then (currentStart, currentLen)
    else (longestStart, longestLen)

/-- The decidable core of the compression claim for one boolean pattern:
the scan of the source agrees with the specification's longest-run choice,
and that choice is a longest run with the earliest start among the longest.
The bounds 9 cover every start index and length of an 8-element pattern. -/
@[reducible] def scanAgreesAt (bs : List Bool) : Prop :=
  (runScanB bs).2 = (specBest bs).2 ∧
  (1 < (specBest bs).2 → (runScanB bs).1 = ((specBest bs).1 : Int)) ∧
  (1 < (specBest bs).2 →
    runAllTrue bs (specBest bs).1 (specBest bs).2 = true ∧
    (specBest bs).1 + (specBest bs).2 ≤ bs.length) ∧
  (∀ s, s < 9 → ∀ l, l < 9 →
    1 ≤ l → s + l ≤ bs.length → runAllTrue bs s l = true →
    l ≤ (specBest bs).2 ∧ ((specBest bs).2 ≤ l → (specBest bs).1 ≤ s))

/-- The compression algorithm as the specification words it: elide the
chosen longest run when its length is at least 2, otherwise join the
simplified groups unchanged. -/
def compressSpec (simplified : List JStr) : JStr :=
  let best := specBest (zeroPattern simplified)
  if 2 ≤ best.2 then elideAt simplified best.1 best.2
  else joinColon simplified

/-- The proposition that specBest names a longest run of zero groups with
the earliest start among runs of maximal length: every run is no longer,
every run of the same length starts no earlier, and when the chosen length
is at least 2 the chosen segment really is a run. -/
def bestRunCorrect (bs : List Bool) : Prop :=
  (2 ≤ (specBest bs).2 → zeroRunAt bs (specBest bs).1 (specBest bs).2) ∧
  ∀ s l, zeroRunAt bs s l →
    l ≤ (specBest bs).2 ∧ ((specBest bs).2 ≤ l → (specBest bs).1 ≤ s)

/-! ## Properties of the string primitives -/

theorem jsSplit_ne_nil (sep : Char) (s : JStr) : jsSplit sep s ≠ [] := by
  induction s with
  | nil => simp [jsSplit]
  | cons c cs ih =>
    simp only [jsSplit]
    split
    · simp
    · cases h : jsSplit sep cs with
      | nil => exact absurd h ih
      | cons g gs => simp [consHead]

theorem jsSplit_append (sep : Char) (g t : JStr) (hg : sep ∉ g) :
    jsSplit sep (g ++ t) = glueHead g (jsSplit sep t) := by
  induction g with
  | nil =>
    cases h : jsSplit sep t with
    | nil => exact absurd h (jsSplit_ne_nil sep t)
    | cons x xs => simp [glueHead, h]
  | cons c g ih =>
    have hcs : ¬ c = sep := fun e => hg (by simp [e])
    have hg1 : sep ∉ g := fun m => hg (List.mem_cons_of_mem _ m)
    simp only [List.cons_append, jsSplit, if_neg hcs]
    rw [show (g.append t) = g ++ t from rfl, ih hg1]
    cases h : jsSplit sep t with
    | nil => exact absurd h (jsSplit_ne_nil sep t)
    | cons x xs => simp [glueHead, consHead]

theorem jsSplit_single (sep : Char) (g : JStr) (hg : sep ∉ g) :
    jsSplit sep g = [g] := by
  have h := jsSplit_append sep g [] hg
  simpa [jsSplit, glueHead] using h

theorem joinColon_cons (g : JStr) (gs : List JStr) (h : gs ≠ []) :
    joinColon (g :: gs) = g ++ ':' :: joinColon gs := by
  cases gs with
  | nil => exact absurd rfl h
  | cons x xs => rfl

theorem joinColon_consHead (c : Char) (l : List JStr) (h : l ≠ []) :
    joinColon (consHead c l) = c :: joinColon l := by
  cases l with
  | nil => exact absurd rfl h
  | cons x xs =>
    cases xs with
    | nil => rfl
    | cons y ys => rfl

theorem jsSplit_joinColon (gs : List JStr) (h0 : gs ≠ [])
    (hg : ∀ g ∈ gs, ':' ∉ g) : jsSplit ':' (joinColon gs) = gs := by
  induction gs with
  | nil => exact absurd rfl h0
  | cons g gs ih =>
    cases gs with
    | nil => exact jsSplit_single ':' g (hg g (by simp))
    | cons g1 gs1 =>
      rw [joinColon_cons g _ (by simp)]
      rw [jsSplit_append ':' g _ (hg g (by simp))]
      have h1 : jsSplit ':' (':' :: joinColon (g1 :: gs1)) =
          [] :: jsSplit ':' (joinColon (g1 :: gs1)) := by simp [jsSplit]
      rw [h1, ih (by simp) (fun x hx => hg x (List.mem_cons_of_mem _ hx))]
      simp [glueHead]

theorem joinColon_jsSplit (s : JStr) : joinColon (jsSplit ':' s) = s := by
  induction s with
  | nil => rfl
  | cons c cs ih =>
    by_cases hc : c = ':'
    · subst hc
      have h1 : jsSplit ':' (':' :: cs) = [] :: jsSplit ':' cs := by simp [jsSplit]
      rw [h1, joinColon_cons [] _ (jsSplit_ne_nil ':' cs), ih]
      rfl
    · have h1 : jsSplit ':' (c :: cs) = consHead c (jsSplit ':' cs) := by
        simp [jsSplit, hc]
      rw [h1, joinColon_consHead c _ (jsSplit_ne_nil ':' cs), ih]

/-! ## Properties of digit characters -/

theorem hexVal_lt_16 {c : Char} (h : c ∈ hexDigitChars) : hexVal c < 16 := by
  have hall : ∀ x ∈ hexDigitChars, hexVal x < 16 := by decide
  exact hall c h

theorem lowerHex_sub_hex {c : Char} (h : c ∈ lowerHexChars) : c ∈ hexDigitChars := by
  have hall : ∀ x ∈ lowerHexChars, x ∈ hexDigitChars := by decide
  exact hall c h

theorem jsDigitChar_hexVal {c : Char} (h : c ∈ lowerHexChars) :
    jsDigitChar (hexVal c) = c := by
  have hall : ∀ x ∈ lowerHexChars, jsDigitChar (hexVal x) = x := by decide
  exact hall c h

theorem hexVal_jsDigitChar : ∀ d, d < 16 → hexVal (jsDigitChar d) = d := by decide

theorem jsDigitChar_mem_lowerHex : ∀ d, d < 16 → jsDigitChar d ∈ lowerHexChars := by
  decide

theorem toLower_hex_mem : ∀ c ∈ hexDigitChars, Char.toLower c ∈ lowerHexChars := by
  decide

theorem lowerHex_ne_colon : ∀ c ∈ lowerHexChars, ¬ c = ':' := by decide

/-! ## Properties of the toString model -/

theorem natToStringAux_acc (base : Nat) :
    ∀ fuel n acc, natToStringAux base fuel n acc = natToStringAux base fuel n [] ++ acc := by
  intro fuel
  induction fuel with
  | zero => intro n acc; rfl
  | succ f ih =>
    intro n acc
    simp only [natToStringAux]
    split
    · rfl
    · rw [ih (n / base) (jsDigitChar (n % base) :: acc),
        ih (n / base) [jsDigitChar (n % base)]]
      simp

theorem natToStringAux_fuel (base : Nat) (hb : 1 < base) :
    ∀ fuel1 fuel2 n acc, n < fuel1 → n < fuel2 →
      natToStringAux base fuel1 n acc = natToStringAux base fuel2 n acc := by
  intro fuel1
  induction fuel1 with
  | zero => intro fuel2 n acc h1 h2; omega
  | succ f ih =>
    intro fuel2 n acc h1 h2
    cases fuel2 with
    | zero => omega
    | succ f2 =>
      simp only [natToStringAux]
      split
      · rfl
      · rename_i hn
        have hlt : n / base < n := Nat.div_lt_self (by omega) hb
        exact ih f2 (n / base) _ (by omega) (by omega)

theorem natToStringBase_eq (base : Nat) (hb : 1 < base) (n : Nat) :
    natToStringBase base n =
      if n < base then [jsDigitChar n]
      else natToStringBase base (n / base) ++ [jsDigitChar (n % base)] := by
  have hstep : natToStringBase base n =
      if n < base then [jsDigitChar (n % base)]
      else natToStringAux base n (n / base) [jsDigitChar (n % base)] := rfl
  rw [hstep]
  split
  · rename_i h; rw [Nat.mod_eq_of_lt h]
  · rename_i h
    have hlt : n / base < n := Nat.div_lt_self (by omega) hb
    rw [natToStringAux_acc base n (n / base),
      natToStringAux_fuel base hb n (n / base + 1) (n / base) [] (by omega) (by omega)]
    rfl

theorem natToHex_eq (n : Nat) :
    natToHex n = if n < 16 then [jsDigitChar n]
      else natToHex (n / 16) ++ [jsDigitChar (n % 16)] :=
  natToStringBase_eq 16 (by omega) n

theorem natToDec_eq (n : Nat) :
    natToDec n = if n < 10 then [jsDigitChar n]
      else natToDec (n / 10) ++ [jsDigitChar (n % 10)] :=
  natToStringBase_eq 10 (by omega) n

theorem parseHexDigits_append (xs : JStr) (c : Char) :
    parseHexDigits (xs ++ [c]) = 16 * parseHexDigits xs + hexVal c := by
  simp [parseHexDigits, List.foldl_append]

theorem parseHexDigits_natToHex (n : Nat) : parseHexDigits (natToHex n) = n := by
  induction n using Nat.strong_induction_on with
  | _ n ih =>
    rw [natToHex_eq]
    split
    · rename_i h
      simp [parseHexDigits, hexVal_jsDigitChar n h]
    · rename_i h
      rw [parseHexDigits_append,
        ih (n / 16) (Nat.div_lt_self (by omega) (by omega)),
        hexVal_jsDigitChar (n % 16) (Nat.mod_lt n (by omega))]
      omega

theorem natToHex_chars (n : Nat) : ∀ c ∈ natToHex n, c ∈ lowerHexChars := by
  induction n using Nat.strong_induction_on with
  | _ n ih =>
    rw [natToHex_eq]
    split
    · rename_i h
      intro c hc
      simp only [List.mem_singleton] at hc
      subst hc
      exact jsDigitChar_mem_lowerHex n h
    · rename_i h
      intro c hc
      rw [List.mem_append] at hc
      rcases hc with hc | hc
      · exact ih (n / 16) (Nat.div_lt_self (by omega) (by omega)) c hc
      · simp only [List.mem_singleton] at hc
        subst hc
        exact jsDigitChar_mem_lowerHex (n % 16) (Nat.mod_lt n (by omega))

theorem natToHex_ne_nil (n : Nat) : natToHex n ≠ [] := by
  rw [natToHex_eq]; split <;> simp

theorem natToHex_length {k n : Nat} (hk : 1 ≤ k) (h : n < 16 ^ k) :
    (natToHex n).length ≤ k := by
  induction k generalizing n with
  | zero => omega
  | succ k ih =>
    rw [natToHex_eq]
    split
    · simp
    · rename_i hn
      have hk1 : 1 ≤ k := by
        rcases Nat.eq_zero_or_pos k with h0 | h1
        · subst h0; rw [pow_one] at h; omega
        · exact h1
      have hd : n / 16 < 16 ^ k := by
        have h2 : n < 16 ^ k * 16 := by rw [← pow_succ]; exact h
        exact (Nat.div_lt_iff_lt_mul (by omega)).mpr h2
      have h3 := ih hk1 hd
      simp only [List.length_append, List.length_cons, List.length_nil]
      omega

theorem natToHex_step (a d : Nat) (ha : 0 < a) (hd : d < 16) :
    natToHex (16 * a + d) = natToHex a ++ [jsDigitChar d] := by
  rw [natToHex_eq (16 * a + d)]
  have h1 : ¬ 16 * a + d < 16 := by omega
  have h2 : (16 * a + d) / 16 = a := by omega
  have h3 : (16 * a + d) % 16 = d := by omega
  rw [if_neg h1, h2, h3]

theorem padStart4_natToHex_digits {d1 d2 d3 d4 : Nat}
    (h1 : d1 < 16) (h2 : d2 < 16) (h3 : d3 < 16) (h4 : d4 < 16) :
    padStart4 (natToHex (16 * (16 * (16 * d1 + d2) + d3) + d4)) =
      [jsDigitChar d1, jsDigitChar d2, jsDigitChar d3, jsDigitChar d4] := by
  have hz : jsDigitChar 0 = '0' := by decide
  rcases Nat.eq_zero_or_pos d1 with e1 | p1
  · subst e1
    rcases Nat.eq_zero_or_pos d2 with e2 | p2
    · subst e2
      rcases Nat.eq_zero_or_pos d3 with e3 | p3
      · subst e3
        simp only [Nat.mul_zero, Nat.zero_add]
        rw [natToHex_eq, if_pos h4]
        simp [padStart4, hz, List.replicate_succ]
      · simp only [Nat.mul_zero, Nat.zero_add]
        rw [natToHex_step d3 d4 p3 h4, natToHex_eq, if_pos h3]
        simp [padStart4, hz, List.replicate_succ]
    · simp only [Nat.mul_zero, Nat.zero_add]
      rw [natToHex_step (16 * d2 + d3) d4 (by omega) h4,
        natToHex_step d2 d3 p2 h3, natToHex_eq, if_pos h2]
      simp [padStart4, hz, List.replicate_succ]
  · rw [natToHex_step (16 * (16 * d1 + d2) + d3) d4 (by omega) h4,
      natToHex_step (16 * d1 + d2) d3 (by omega) h3,
      natToHex_step d1 d2 p1 h2, natToHex_eq, if_pos h1]
    simp [padStart4]

theorem exists_four_of_length {α : Type} (l : List α) (hl : l.length = 4) :
    ∃ a b c d, l = [a, b, c, d] := by
  rcases l with _ | ⟨a, l⟩
  · simp at hl
  rcases l with _ | ⟨b, l⟩
  · simp at hl
  rcases l with _ | ⟨c, l⟩
  · simp at hl
  rcases l with _ | ⟨d, l⟩
  · simp at hl
  rcases l with _ | ⟨e, l⟩
  · exact ⟨a, b, c, d, rfl⟩
  · simp at hl

theorem parseHexDigits_four (c1 c2 c3 c4 : Char) :
    parseHexDigits [c1, c2, c3, c4] =
      16 * (16 * (16 * hexVal c1 + hexVal c2) + hexVal c3) + hexVal c4 := by
  simp [parseHexDigits]

theorem padStart4_natToHex_parse (g : JStr) (hlen : g.length = 4)
    (hg : ∀ c ∈ g, c ∈ lowerHexChars) :
    padStart4 (natToHex (parseHexDigits g)) = g := by
  obtain ⟨c1, c2, c3, c4, rfl⟩ := exists_four_of_length g hlen
  have m1 : c1 ∈ lowerHexChars := hg c1 (by simp)
  have m2 : c2 ∈ lowerHexChars := hg c2 (by simp)
  have m3 : c3 ∈ lowerHexChars := hg c3 (by simp)
  have m4 : c4 ∈ lowerHexChars := hg c4 (by simp)
  rw [parseHexDigits_four,
    padStart4_natToHex_digits (hexVal_lt_16 (lowerHex_sub_hex m1))
      (hexVal_lt_16 (lowerHex_sub_hex m2)) (hexVal_lt_16 (lowerHex_sub_hex m3))
      (hexVal_lt_16 (lowerHex_sub_hex m4)),
    jsDigitChar_hexVal m1, jsDigitChar_hexVal m2, jsDigitChar_hexVal m3,
    jsDigitChar_hexVal m4]

theorem padStart4_parse (g : JStr) :
    parseHexDigits (padStart4 g) = parseHexDigits g := by
  unfold padStart4
  generalize 4 - g.length = k
  induction k with
  | zero => rfl
  | succ k ih =>
    have h0 : hexVal '0' = 0 := by decide
    simp only [List.replicate_succ, List.cons_append, parseHexDigits,
      List.foldl_cons, h0] at ih ⊢
    simpa using ih

theorem foldlHex_lt (g : JStr) (hg : ∀ c ∈ g, c ∈ hexDigitChars) :
    ∀ a, g.foldl (fun a c => 16 * a + hexVal c) a < (a + 1) * 16 ^ g.length := by
  induction g with
  | nil => intro a; simp
  | cons c g ih =>
    intro a
    have hc := hexVal_lt_16 (hg c (by simp))
    have h2 := ih (fun x hx => hg x (List.mem_cons_of_mem _ hx)) (16 * a + hexVal c)
    simp only [List.foldl_cons, List.length_cons]
    calc g.foldl (fun a c => 16 * a + hexVal c) (16 * a + hexVal c)
        < (16 * a + hexVal c + 1) * 16 ^ g.length := h2
      _ ≤ (a + 1) * 16 ^ (g.length + 1) := by
          rw [pow_succ]
          have h3 : 16 * a + hexVal c + 1 ≤ (a + 1) * 16 := by omega
          calc (16 * a + hexVal c + 1) * 16 ^ g.length
              ≤ ((a + 1) * 16) * 16 ^ g.length := Nat.mul_le_mul_right _ h3
            _ = (a + 1) * (16 ^ g.length * 16) := by ring

theorem parseHexDigits_lt (g : JStr) (hg : ∀ c ∈ g, c ∈ hexDigitChars) :
    parseHexDigits g < 16 ^ g.length := by
  have h := foldlHex_lt g hg 0
  simpa [parseHexDigits] using h

theorem jsParseIntHex_of_hex (g : JStr) (h0 : g ≠ [])
    (h : ∀ c ∈ g, c ∈ hexDigitChars) :
    jsParseIntHex g = some (parseHexDigits g) := by
  unfold jsParseIntHex
  have ht : g.takeWhile isHexDigit = g :=
    List.takeWhile_eq_self_iff.mpr (fun c hc => by
      simpa [isHexDigit] using h c hc)
  simp [ht, h0]

/-! ## Arithmetic of the integer bridge -/

theorem and_65535 (v : Nat) : v &&& 65535 = v % 65536 := by
  have h := Nat.and_pow_two_sub_one_eq_mod v 16
  norm_num at h
  exact h

theorem shiftRight_16 (v : Nat) : v >>> 16 = v / 65536 := by
  rw [Nat.shiftRight_eq_div_pow]

theorem shiftLeft_16 (a : Nat) : a <<< 16 = a * 65536 := by
  rw [Nat.shiftLeft_eq]

theorem lor_shift16 (a v : Nat) (hv : v < 65536) :
    (a <<< 16) ||| v = a * 65536 + v := by
  apply Nat.eq_of_testBit_eq
  intro j
  rw [Nat.testBit_lor, Nat.testBit_shiftLeft]
  by_cases hj : 16 ≤ j
  · have hv16 : Nat.testBit v j = false := by
      apply Nat.testBit_lt_two_pow
      have h2 : (2:Nat) ^ 16 ≤ 2 ^ j := Nat.pow_le_pow_right (by omega) hj
      omega
    rw [hv16, Bool.or_false, decide_eq_true (show j ≥ 16 from hj), Bool.true_and]
    have hdiv : (a * 65536 + v) / 2 ^ j = a / 2 ^ (j - 16) := by
      have e1 : (2:Nat) ^ j = 65536 * 2 ^ (j - 16) := by
        rw [show (65536:Nat) = 2 ^ 16 from by norm_num, ← pow_add]
        congr 1
        omega
      rw [e1, ← Nat.div_div_eq_div_mul]
      congr 1
      rw [Nat.add_comm, Nat.add_mul_div_right v a (by omega : (0:Nat) < 65536),
        Nat.div_eq_of_lt hv]
      omega
    rw [Nat.testBit_to_div_mod, Nat.testBit_to_div_mod, hdiv]
  · rw [decide_eq_false (show ¬ j ≥ 16 from hj), Bool.false_and, Bool.false_or]
    have e0 : (65536:Nat) = 2 ^ (15 - j) * 2 * 2 ^ j := by
      calc (65536:Nat) = 2 ^ 16 := by norm_num
        _ = 2 ^ ((15 - j) + 1 + j) := by congr 1; omega
        _ = 2 ^ (15 - j) * 2 * 2 ^ j := by rw [pow_add, pow_add, pow_one]
    have e1 : a * 65536 + v = v + ((a * 2 ^ (15 - j)) * 2) * 2 ^ j := by
      rw [e0]; ring
    have hmod : (a * 65536 + v) / 2 ^ j % 2 = v / 2 ^ j % 2 := by
      rw [e1, Nat.add_mul_div_right v _ (Nat.two_pow_pos j)]
      omega
    rw [Nat.testBit_to_div_mod, Nat.testBit_to_div_mod, hmod]

theorem hextetList_length (k v : Nat) : (hextetList k v).length = k := by
  induction k generalizing v with
  | zero => rfl
  | succ k ih => simp [hextetList, ih]

theorem hextetList_mem_lt (k v : Nat) : ∀ x ∈ hextetList k v, x < 65536 := by
  induction k generalizing v with
  | zero => simp [hextetList]
  | succ k ih =>
    intro x hx
    simp only [hextetList, List.mem_append, List.mem_singleton] at hx
    rcases hx with hx | hx
    · exact ih (v / 65536) x hx
    · subst hx; exact Nat.mod_lt _ (by omega)

theorem bigIntToIPv6Loop_spec (k : Nat) :
    ∀ v acc, bigIntToIPv6Loop k v acc =
      (hextetList k v).map (fun x => padStart4 (natToHex x)) ++ acc := by
  induction k with
  | zero => intro v acc; rfl
  | succ k ih =>
    intro v acc
    simp only [bigIntToIPv6Loop]
    rw [ih (v >>> 16), shiftRight_16, and_65535]
    simp [hextetList, List.map_append]

theorem bigIntToIPv6_eq (v : Nat) :
    bigIntToIPv6 v =
      joinColon ((hextetList 8 v).map (fun x => padStart4 (natToHex x))) := by
  unfold bigIntToIPv6
  rw [bigIntToIPv6Loop_spec 8 v []]
  simp

theorem valNat_append (vs : List Nat) (y : Nat) :
    valNat (vs ++ [y]) = valNat vs * 65536 + y := by
  simp [valNat, List.foldl_append]

theorem mod_mul_decomp (v m : Nat) :
    v % (m * 65536) = (v / 65536 % m) * 65536 + v % 65536 := by
  have h1 : v % (m * 65536) % 65536 = v % 65536 := Nat.mod_mod_of_dvd v ⟨m, by ring⟩
  have h2 : v % (m * 65536) / 65536 = v / 65536 % m := by
    rw [Nat.mul_comm m 65536]
    exact Nat.mod_mul_right_div_self v 65536 m
  calc v % (m * 65536)
      = 65536 * (v % (m * 65536) / 65536) + v % (m * 65536) % 65536 :=
        (Nat.div_add_mod _ 65536).symm
    _ = (v / 65536 % m) * 65536 + v % 65536 := by rw [h1, h2]; ring

theorem valNat_hextetList (k v : Nat) : valNat (hextetList k v) = v % 65536 ^ k := by
  induction k generalizing v with
  | zero => simp [hextetList, valNat, Nat.mod_one]
  | succ k ih =>
    simp only [hextetList]
    rw [valNat_append, ih (v / 65536), pow_succ, mod_mul_decomp v (65536 ^ k)]

theorem hextetList_mod (k v : Nat) : hextetList k (v % 65536 ^ k) = hextetList k v := by
  induction k generalizing v with
  | zero => rfl
  | succ k ih =>
    simp only [hextetList]
    have h1 : v % 65536 ^ (k + 1) % 65536 = v % 65536 :=
      Nat.mod_mod_of_dvd v ⟨65536 ^ k, by rw [pow_succ]; ring⟩
    have h2 : v % 65536 ^ (k + 1) / 65536 = v / 65536 % 65536 ^ k := by
      rw [pow_succ, Nat.mul_comm]
      exact Nat.mod_mul_right_div_self v 65536 (65536 ^ k)
    rw [h1, h2, ih (v / 65536)]

theorem hextetList_valNat (vs : List Nat) (hv : ∀ x ∈ vs, x < 65536) :
    hextetList vs.length (valNat vs) = vs := by
  induction vs using List.reverseRecOn with
  | nil => rfl
  | append_singleton ys y ih =>
    have hy : y < 65536 := hv y (by simp)
    have hys : ∀ x ∈ ys, x < 65536 := fun x hx => hv x (by simp [hx])
    rw [valNat_append]
    simp only [List.length_append, List.length_singleton]
    simp only [hextetList]
    have h1 : (valNat ys * 65536 + y) / 65536 = valNat ys := by omega
    have h2 : (valNat ys * 65536 + y) % 65536 = y := by omega
    rw [h1, h2, ih hys]

theorem foldlVal_lt (vs : List Nat) (hv : ∀ x ∈ vs, x < 65536) :
    ∀ a, vs.foldl (fun a v => a * 65536 + v) a < (a + 1) * 65536 ^ vs.length := by
  induction vs with
  | nil => intro a; simp
  | cons x vs ih =>
    intro a
    have hx := hv x (by simp)
    have h2 := ih (fun c hc => hv c (List.mem_cons_of_mem _ hc)) (a * 65536 + x)
    simp only [List.foldl_cons, List.length_cons]
    calc vs.foldl (fun a v => a * 65536 + v) (a * 65536 + x)
        < (a * 65536 + x + 1) * 65536 ^ vs.length := h2
      _ ≤ (a + 1) * 65536 ^ (vs.length + 1) := by
          rw [pow_succ]
          have h3 : a * 65536 + x + 1 ≤ (a + 1) * 65536 := by omega
          calc (a * 65536 + x + 1) * 65536 ^ vs.length
              ≤ ((a + 1) * 65536) * 65536 ^ vs.length := Nat.mul_le_mul_right _ h3
            _ = (a + 1) * (65536 ^ vs.length * 65536) := by ring

theorem valNat_lt (vs : List Nat) (hv : ∀ x ∈ vs, x < 65536) :
    valNat vs < 65536 ^ vs.length := by
  have h := foldlVal_lt vs hv 0
  simpa [valNat] using h

/-! ## Round trips of the integer bridge -/

theorem isExpandedAddress_iff (a : JStr) :
    isExpandedAddress a = true ↔
      (jsSplit ':' a).length = 8 ∧
      ∀ g ∈ jsSplit ':' a, g.length = 4 ∧ ∀ c ∈ g, c ∈ lowerHexChars := by
  simp [isExpandedAddress, isExpandedGroup, isLowerHexDigit, List.all_eq_true]

theorem foldl_bigIntStep (gs : List JStr)
    (hg : ∀ g ∈ gs, g ≠ [] ∧ g.length ≤ 4 ∧ ∀ c ∈ g, c ∈ hexDigitChars) :
    ∀ a, gs.foldl bigIntStep (some a) =
      some ((gs.map parseHexDigits).foldl (fun x v => x * 65536 + v) a) := by
  induction gs with
  | nil => intro a; rfl
  | cons g gs ih =>
    intro a
    obtain ⟨h0, hlen, hhex⟩ := hg g (by simp)
    have hp := jsParseIntHex_of_hex g h0 hhex
    have hv : parseHexDigits g < 65536 := by
      have h1 := parseHexDigits_lt g hhex
      have h2 : (16:Nat) ^ g.length ≤ 16 ^ 4 := Nat.pow_le_pow_right (by omega) hlen
      have h3 : (16:Nat) ^ 4 = 65536 := by norm_num
      omega
    simp only [List.foldl_cons, List.map_cons]
    rw [show bigIntStep (some a) g = some ((a <<< 16) ||| parseHexDigits g) from by
      simp [bigIntStep, hp]]
    rw [lor_shift16 a _ hv]
    exact ih (fun x hx => hg x (List.mem_cons_of_mem _ hx)) (a * 65536 + parseHexDigits g)

theorem ipv6ToBigInt_expanded (a : JStr) (h : isExpandedAddress a = true) :
    ipv6ToBigInt a = some (valNat ((jsSplit ':' a).map parseHexDigits)) ∧
    valNat ((jsSplit ':' a).map parseHexDigits) < 2 ^ 128 := by
  obtain ⟨hlen, hall⟩ := (isExpandedAddress_iff a).mp h
  have hg : ∀ g ∈ jsSplit ':' a, g ≠ [] ∧ g.length ≤ 4 ∧ ∀ c ∈ g, c ∈ hexDigitChars := by
    intro g hgmem
    obtain ⟨hl, hc⟩ := hall g hgmem
    exact ⟨by intro e; rw [e] at hl; simp at hl, by omega,
      fun c hcm => lowerHex_sub_hex (hc c hcm)⟩
  constructor
  · unfold ipv6ToBigInt
    exact foldl_bigIntStep (jsSplit ':' a) hg 0
  · have hv : ∀ x ∈ (jsSplit ':' a).map parseHexDigits, x < 65536 := by
      intro x hx
      rw [List.mem_map] at hx
      obtain ⟨g, hgmem, rfl⟩ := hx
      obtain ⟨hl, hc⟩ := hall g hgmem
      have h1 := parseHexDigits_lt g (fun c hcm => lowerHex_sub_hex (hc c hcm))
      rw [hl] at h1
      norm_num at h1
      omega
    have h2 := valNat_lt _ hv
    rw [List.length_map, hlen] at h2
    norm_num at h2
    omega

theorem padStart4_group {x : Nat} (hx : x < 65536) :
    (padStart4 (natToHex x)).length = 4 ∧
    ∀ c ∈ padStart4 (natToHex x), c ∈ lowerHexChars := by
  have hlen : (natToHex x).length ≤ 4 := by
    apply natToHex_length (by omega)
    norm_num
    omega
  constructor
  · simp only [padStart4, List.length_append, List.length_replicate]
    omega
  · intro c hc
    simp only [padStart4, List.mem_append, List.mem_replicate] at hc
    rcases hc with ⟨-, hc⟩ | hc
    · subst hc; decide
    · exact natToHex_chars x c hc

theorem bigIntToIPv6_split (v : Nat) :
    jsSplit ':' (bigIntToIPv6 v) =
      (hextetList 8 v).map (fun x => padStart4 (natToHex x)) := by
  rw [bigIntToIPv6_eq]
  apply jsSplit_joinColon
  · intro e
    have hlen8 := congrArg List.length e
    rw [List.length_map, hextetList_length] at hlen8
    simp at hlen8
  · intro g hgmem
    rw [List.mem_map] at hgmem
    obtain ⟨x, hx, rfl⟩ := hgmem
    have hx65536 := hextetList_mem_lt 8 v x hx
    obtain ⟨-, hchars⟩ := padStart4_group hx65536
    intro hcolon
    exact lowerHex_ne_colon ':' (hchars ':' hcolon) rfl

theorem bigIntToIPv6_expanded (v : Nat) :
    isExpandedAddress (bigIntToIPv6 v) = true := by
  rw [isExpandedAddress_iff, bigIntToIPv6_split]
  constructor
  · rw [List.length_map, hextetList_length]
  · intro g hgmem
    rw [List.mem_map] at hgmem
    obtain ⟨x, hx, rfl⟩ := hgmem
    have hx65536 := hextetList_mem_lt 8 v x hx
    exact padStart4_group hx65536

theorem ipv6ToBigInt_bigIntToIPv6 (v : Nat) :
    ipv6ToBigInt (bigIntToIPv6 v) = some (v % 2 ^ 128) := by
  unfold ipv6ToBigInt
  rw [bigIntToIPv6_split]
  have hg : ∀ g ∈ (hextetList 8 v).map (fun x => padStart4 (natToHex x)),
      g ≠ [] ∧ g.length ≤ 4 ∧ ∀ c ∈ g, c ∈ hexDigitChars := by
    intro g hgmem
    rw [List.mem_map] at hgmem
    obtain ⟨x, hx, rfl⟩ := hgmem
    have hx65536 := hextetList_mem_lt 8 v x hx
    obtain ⟨hl, hc⟩ := padStart4_group hx65536
    exact ⟨by intro e; rw [e] at hl; simp at hl, by omega,
      fun c hcm => lowerHex_sub_hex (hc c hcm)⟩
  rw [foldl_bigIntStep _ hg 0]
  congr 1
  rw [List.map_map]
  have hmap : (hextetList 8 v).map
      (parseHexDigits ∘ fun x => padStart4 (natToHex x)) = hextetList 8 v := by
    rw [show (parseHexDigits ∘ fun x => padStart4 (natToHex x)) =
        (fun x : Nat => parseHexDigits (padStart4 (natToHex x))) from rfl]
    rw [List.map_congr_left (fun x _ => by
      rw [padStart4_parse, parseHexDigits_natToHex])]
    exact List.map_id _
  rw [hmap]
  show valNat (hextetList 8 v) = v % 2 ^ 128
  rw [valNat_hextetList]
  norm_num

theorem bigIntToIPv6_ipv6ToBigInt (a : JStr) (h : isExpandedAddress a = true) :
    ∃ v, ipv6ToBigInt a = some v ∧ v < 2 ^ 128 ∧ bigIntToIPv6 v = a := by
  obtain ⟨hparse, hlt⟩ := ipv6ToBigInt_expanded a h
  obtain ⟨hlen, hall⟩ := (isExpandedAddress_iff a).mp h
  refine ⟨valNat ((jsSplit ':' a).map parseHexDigits), hparse, hlt, ?_⟩
  have hv : ∀ x ∈ (jsSplit ':' a).map parseHexDigits, x < 65536 := by
    intro x hx
    rw [List.mem_map] at hx
    obtain ⟨g, hgmem, rfl⟩ := hx
    obtain ⟨hl, hc⟩ := hall g hgmem
    have h1 := parseHexDigits_lt g (fun c hcm => lowerHex_sub_hex (hc c hcm))
    rw [hl] at h1
    norm_num at h1
    omega
  rw [bigIntToIPv6_eq]
  have h8 : (8:Nat) = ((jsSplit ':' a).map parseHexDigits).length := by
    rw [List.length_map, hlen]
  rw [h8, hextetList_valNat _ hv, List.map_map]
  have hmap : (jsSplit ':' a).map
      ((fun x => padStart4 (natToHex x)) ∘ parseHexDigits) = jsSplit ':' a := by
    rw [List.map_congr_left (fun g hgmem => by
      obtain ⟨hl, hc⟩ := hall g hgmem
      show padStart4 (natToHex (parseHexDigits g)) = id g
      rw [padStart4_natToHex_parse g hl hc]
      rfl)]
    exact List.map_id _
  rw [hmap, joinColon_jsSplit]

/-! ## Claim C3: integer bridge round trip -/

/-- C3: fromInteger is a left inverse of toInteger on valid Addresses: for
every expanded 8-hextet address a (each hextet an unsigned 16-bit value,
rendered as 4 lowercase hex digits), bigIntToIPv6 (ipv6ToBigInt a) = a,
where the successful BigInt conversion is the some case of the model. -/
theorem C3_fromInteger_toInteger_roundtrip (a : JStr)
    (h : isExpandedAddress a = true) :
    (ipv6ToBigInt a).map bigIntToIPv6 = some a := by
  obtain ⟨v, hv, -, hround⟩ := bigIntToIPv6_ipv6ToBigInt a h
  simp [hv, hround]

theorem C3_witness :
    isExpandedAddress (jstr "2001:0db8:0000:0000:0000:0000:0000:0001") = true ∧
    (ipv6ToBigInt (jstr "2001:0db8:0000:0000:0000:0000:0000:0001")).map bigIntToIPv6 =
      some (jstr "2001:0db8:0000:0000:0000:0000:0000:0001") :=
  ⟨by decide, C3_fromInteger_toInteger_roundtrip _ (by decide)⟩

/-! ## Claim C9: fromInteger truncates to the low 128 bits -/

/-- C9: fromInteger silently truncates to the low 128 bits: for every
non-negative integer v, bigIntToIPv6 v = bigIntToIPv6 (v mod 2^128), values
outside the 128-bit domain are not rejected, and the result is always an
8-group lowercase expanded address. -/
theorem C9_fromInteger_truncates (v : Nat) :
    bigIntToIPv6 v = bigIntToIPv6 (v % 2 ^ 128) ∧
    isExpandedAddress (bigIntToIPv6 v) = true := by
  constructor
  · have h1 : hextetList 8 (v % 2 ^ 128) = hextetList 8 v := by
      rw [show (2:Nat) ^ 128 = 65536 ^ 8 from by norm_num]
      exact hextetList_mod 8 v
    rw [bigIntToIPv6_eq, bigIntToIPv6_eq, h1]
  · exact bigIntToIPv6_expanded v

/-! ## Claim C4: network address masking -/

/-- C4: for every valid expanded address and every prefix length p in
[0,128], networkAddress equals the address's 128-bit integer ANDed with the
mask (2^p - 1) <<< (128 - p); for p = 0 the mask is zero and the result is
the all-zero address, and for p = 128 the mask is all ones and the result
equals the input address. -/
theorem C4_networkAddress_mask (a : JStr) (p : Nat)
    (ha : isExpandedAddress a = true) (hp : p ≤ 128) :
    ∃ v, ipv6ToBigInt a = some v ∧
      getNetworkAddress a p =
        some (bigIntToIPv6 (v &&& ((2 ^ p - 1) <<< (128 - p)))) ∧
      ipv6ToBigInt (bigIntToIPv6 (v &&& ((2 ^ p - 1) <<< (128 - p)))) =
        some (v &&& ((2 ^ p - 1) <<< (128 - p))) ∧
      (p = 0 → bigIntToIPv6 (v &&& ((2 ^ p - 1) <<< (128 - p))) =
        jstr "0000:0000:0000:0000:0000:0000:0000:0000") ∧
      (p = 128 → bigIntToIPv6 (v &&& ((2 ^ p - 1) <<< (128 - p))) = a) := by
  obtain ⟨v, hv, hlt, hround⟩ := bigIntToIPv6_ipv6ToBigInt a ha
  refine ⟨v, hv, ?_, ?_, ?_, ?_⟩
  · simp [getNetworkAddress, hv, Nat.one_shiftLeft]
  · rw [ipv6ToBigInt_bigIntToIPv6]
    congr 1
    apply Nat.mod_eq_of_lt
    have hle : v &&& ((2 ^ p - 1) <<< (128 - p)) ≤ v := Nat.and_le_left
    omega
  · intro hp0
    subst hp0
    simp only [pow_zero, Nat.sub_self, Nat.zero_shiftLeft, Nat.and_zero]
    decide
  · intro hp128
    subst hp128
    simp only [Nat.sub_self, Nat.shiftLeft_zero]
    rw [Nat.and_pow_two_sub_one_eq_mod, Nat.mod_eq_of_lt hlt]
    exact hround

theorem C4_witness :
    ∃ v, ipv6ToBigInt (jstr "2001:0db8:0000:0000:0000:0000:0000:0001") = some v ∧
      getNetworkAddress (jstr "2001:0db8:0000:0000:0000:0000:0000:0001") 32 =
        some (bigIntToIPv6 (v &&& ((2 ^ 32 - 1) <<< (128 - 32)))) ∧
      ipv6ToBigInt (bigIntToIPv6 (v &&& ((2 ^ 32 - 1) <<< (128 - 32)))) =
        some (v &&& ((2 ^ 32 - 1) <<< (128 - 32))) ∧
      (32 = 0 → bigIntToIPv6 (v &&& ((2 ^ 32 - 1) <<< (128 - 32))) =
        jstr "0000:0000:0000:0000:0000:0000:0000:0000") ∧
      (32 = 128 → bigIntToIPv6 (v &&& ((2 ^ 32 - 1) <<< (128 - 32))) =
        jstr "2001:0db8:0000:0000:0000:0000:0000:0001") :=
  C4_networkAddress_mask (jstr "2001:0db8:0000:0000:0000:0000:0000:0001") 32
    (by decide) (by decide)

/-! ## Validity of expansion results and totality -/

theorem groupRegexTest_iff (g : JStr) :
    groupRegexTest g = true ↔ g.length ≤ 4 ∧ ∀ c ∈ g, c ∈ hexDigitChars := by
  simp [groupRegexTest, isHexDigit, List.all_eq_true]

theorem expanded_group_of_regex (g : JStr) (h : groupRegexTest g = true) :
    ((padStart4 g).map Char.toLower).length = 4 ∧
    ∀ c ∈ (padStart4 g).map Char.toLower, c ∈ lowerHexChars := by
  obtain ⟨hlen, hhex⟩ := (groupRegexTest_iff g).mp h
  constructor
  · simp only [List.length_map, padStart4, List.length_append, List.length_replicate]
    omega
  · intro c hc
    rw [List.mem_map] at hc
    obtain ⟨c0, hc0, rfl⟩ := hc
    simp only [padStart4, List.mem_append, List.mem_replicate] at hc0
    rcases hc0 with ⟨-, rfl⟩ | hc0
    · decide
    · exact toLower_hex_mem c0 (hhex c0 hc0)

theorem expandIPv6_valid (s e : JStr) (h : expandIPv6 s = some e) :
    isExpandedAddress e = true := by
  simp only [expandIPv6] at h
  split at h
  · exact absurd h (by simp)
  · split at h
    · exact absurd h (by simp)
    · rename_i groups hgroups
      split at h
      · rename_i hlen8
        split at h
        · rename_i hall
          rw [Option.some_inj] at h
          subst h
          rw [isExpandedAddress_iff]
          have hall2 : ∀ g ∈ groups, groupRegexTest g = true := by
            rw [← List.all_eq_true]
            exact hall
          have hsplit : jsSplit ':'
              (joinColon (groups.map fun g => (padStart4 g).map Char.toLower)) =
              groups.map fun g => (padStart4 g).map Char.toLower := by
            apply jsSplit_joinColon
            · intro e0
              have hl := congrArg List.length e0
              rw [List.length_map, hlen8] at hl
              simp at hl
            · intro g hgmem
              rw [List.mem_map] at hgmem
              obtain ⟨g0, hg0, rfl⟩ := hgmem
              obtain ⟨-, hchars⟩ := expanded_group_of_regex g0 (hall2 g0 hg0)
              intro hcolon
              exact lowerHex_ne_colon ':' (hchars ':' hcolon) rfl
          rw [hsplit]
          constructor
          · rw [List.length_map, hlen8]
          · intro g hgmem
            rw [List.mem_map] at hgmem
            obtain ⟨g0, hg0, rfl⟩ := hgmem
            exact expanded_group_of_regex g0 (hall2 g0 hg0)
        · exact absurd h (by simp)
      · exact absurd h (by simp)

theorem getNetworkAddress_some (a : JStr) (p : Nat)
    (h : isExpandedAddress a = true) :
    ∃ net, getNetworkAddress a p = some net := by
  obtain ⟨hp, -⟩ := ipv6ToBigInt_expanded a h
  unfold getNetworkAddress
  rw [hp]
  exact ⟨_, rfl⟩

/-! ## Claim C8: totality of the entry points -/

/-- C8: totality of the public entry points: for every pair of input
strings, isInRange returns a typed result object and never reaches the
throwing BigInt conversion (modelled as the outer none), because the
conversions are only reached after the prefix has been validated and both
addresses have expanded successfully; expand is total by construction in the
model, returning some address or none. -/
theorem C8_isInCIDRRange_total (address cidrRange : JStr) :
    ∃ r, isInCIDRRange address cidrRange = some r := by
  unfold isInCIDRRange
  by_cases h1 : ((jsSplit '/' cidrRange).get? 1).getD [] = []
  · rw [if_pos h1]; exact ⟨_, rfl⟩
  · rw [if_neg h1]
    cases hp : jsParseInt10 (((jsSplit '/' cidrRange).get? 1).getD []) with
    | none => exact ⟨_, rfl⟩
    | some p =>
      dsimp only
      by_cases h2 : p < 0 ∨ 128 < p
      · rw [if_pos h2]; exact ⟨_, rfl⟩
      · rw [if_neg h2]
        cases hea : expandIPv6 address with
        | none => exact ⟨_, rfl⟩
        | some ea =>
          cases her : expandIPv6 ((jsSplit '/' cidrRange).headD []) with
          | none => exact ⟨_, rfl⟩
          | some er =>
            obtain ⟨n1, hn1⟩ :=
              getNetworkAddress_some ea p.toNat (expandIPv6_valid _ _ hea)
            obtain ⟨n2, hn2⟩ :=
              getNetworkAddress_some er p.toNat (expandIPv6_valid _ _ her)
            dsimp only
            rw [hn1, hn2]
            exact ⟨_, rfl⟩

/-! ## Claim C5: range membership -/

theorem bigIntToIPv6_inj {x y : Nat} (hx : x < 2 ^ 128) (hy : y < 2 ^ 128)
    (h : bigIntToIPv6 x = bigIntToIPv6 y) : x = y := by
  have h1 := ipv6ToBigInt_bigIntToIPv6 x
  have h2 := ipv6ToBigInt_bigIntToIPv6 y
  rw [h] at h1
  have h3 : some (y % 2 ^ 128) = some (x % 2 ^ 128) := h2.symm.trans h1
  rw [Nat.mod_eq_of_lt hx, Nat.mod_eq_of_lt hy] at h3
  exact (Option.some_inj.mp h3).symm

/-- C5: for every valid address text and well-formed CIDR range text with
prefix p in [0,128], isInRange reports inRange true exactly when the two
network addresses at prefix p coincide, i.e. when the masked 128-bit values
of the target and range addresses are equal; the error field is empty. -/
theorem C5_isInRange_iff_networks_equal (address cidrRange rt pt : JStr)
    (p : Int) (hsplit : jsSplit '/' cidrRange = [rt, pt])
    (hp : jsParseInt10 pt = some p) (hp0 : 0 ≤ p) (hp128 : p ≤ 128)
    (ea er : JStr) (hea : expandIPv6 address = some ea)
    (her : expandIPv6 rt = some er) :
    ∃ va vr, ipv6ToBigInt ea = some va ∧ ipv6ToBigInt er = some vr ∧
      isInCIDRRange address cidrRange =
        some ⟨decide (va &&& ((2 ^ p.toNat - 1) <<< (128 - p.toNat)) =
                      vr &&& ((2 ^ p.toNat - 1) <<< (128 - p.toNat))), none⟩ := by
  have hptne : ¬ pt = [] := by
    intro e
    rw [e] at hp
    have h0 : jsParseInt10 ([] : JStr) = none := rfl
    rw [h0] at hp
    exact Option.noConfusion hp
  have hEA := expandIPv6_valid _ _ hea
  have hER := expandIPv6_valid _ _ her
  obtain ⟨va, hva, hvalt, -⟩ := bigIntToIPv6_ipv6ToBigInt ea hEA
  obtain ⟨vr, hvr, hvrlt, -⟩ := bigIntToIPv6_ipv6ToBigInt er hER
  refine ⟨va, vr, hva, hvr, ?_⟩
  simp only [isInCIDRRange, hsplit, List.headD_cons, List.get?_cons_succ,
    List.get?_cons_zero, Option.getD_some]
  rw [if_neg hptne, hp]
  dsimp only
  rw [if_neg (by omega : ¬ (p < 0 ∨ 128 < p)), hea, her]
  dsimp only
  have hna : getNetworkAddress ea p.toNat =
      some (bigIntToIPv6 (va &&& ((1 <<< p.toNat) - 1) <<< (128 - p.toNat))) := by
    unfold getNetworkAddress
    rw [hva]
  have hnr : getNetworkAddress er p.toNat =
      some (bigIntToIPv6 (vr &&& ((1 <<< p.toNat) - 1) <<< (128 - p.toNat))) := by
    unfold getNetworkAddress
    rw [hvr]
  rw [hna, hnr]
  dsimp only
  simp only [Option.some_inj, RangeResult.mk.injEq, and_true]
  rw [Nat.one_shiftLeft, decide_eq_decide]
  constructor
  · intro hstr
    exact bigIntToIPv6_inj (lt_of_le_of_lt Nat.and_le_left hvalt)
      (lt_of_le_of_lt Nat.and_le_left hvrlt) hstr
  · intro hval
    rw [hval]

theorem C5_witness :
    ∃ va vr,
      ipv6ToBigInt (jstr "2001:0db8:0000:0000:0000:0000:0000:0001") = some va ∧
      ipv6ToBigInt (jstr "2001:0db8:0000:0000:0000:0000:0000:0000") = some vr ∧
      isInCIDRRange (jstr "2001:db8::1") (jstr "2001:db8::/32") =
        some ⟨decide (va &&& ((2 ^ (32:Int).toNat - 1) <<< (128 - (32:Int).toNat)) =
                      vr &&& ((2 ^ (32:Int).toNat - 1) <<< (128 - (32:Int).toNat))),
              none⟩ :=
  C5_isInRange_iff_networks_equal (jstr "2001:db8::1") (jstr "2001:db8::/32")
    (jstr "2001:db8::") (jstr "32") 32 (by decide) (by decide) (by decide)
    (by decide) (jstr "2001:0db8:0000:0000:0000:0000:0000:0001")
    (jstr "2001:0db8:0000:0000:0000:0000:0000:0000") (by decide) (by decide)

/-- C5 examples from the claim: the two concrete membership checks. -/
theorem C5_examples :
    isInCIDRRange (jstr "2001:db8::1") (jstr "2001:db8::/32") =
      some ⟨true, none⟩ ∧
    isInCIDRRange (jstr "2001:db9::1") (jstr "2001:db8::/32") =
      some ⟨false, none⟩ := by decide

/-! ## Claim C6: error behaviour of isInCIDRRange -/

/-- C6 (amended): a cidrRangeText whose prefix segment is missing (no "/")
or empty yields the invalid-CIDR-notation error; a nonempty prefix segment
that does not parse as an integer in [0,128] yields the prefix-range error;
failure to expand the target address versus the range address yields the two
distinct address errors, the target being checked first; and an error result
never reports inRange true. -/
theorem C6_error_behaviour (address cidrRange : JStr) :
    (((jsSplit '/' cidrRange).get? 1).getD [] = [] →
      isInCIDRRange address cidrRange = some ⟨false, some msgInvalidCIDR⟩) ∧
    (∀ pt, ((jsSplit '/' cidrRange).get? 1).getD [] = pt → pt ≠ [] →
      (jsParseInt10 pt = none ∨
        (∃ p, jsParseInt10 pt = some p ∧ (p < 0 ∨ 128 < p))) →
      isInCIDRRange address cidrRange = some ⟨false, some msgPrefixRange⟩) ∧
    (∀ pt p, ((jsSplit '/' cidrRange).get? 1).getD [] = pt → pt ≠ [] →
      jsParseInt10 pt = some p → 0 ≤ p → p ≤ 128 →
      expandIPv6 address = none →
      isInCIDRRange address cidrRange = some ⟨false, some msgInvalidAddress⟩) ∧
    (∀ pt p ea, ((jsSplit '/' cidrRange).get? 1).getD [] = pt → pt ≠ [] →
      jsParseInt10 pt = some p → 0 ≤ p → p ≤ 128 →
      expandIPv6 address = some ea →
      expandIPv6 ((jsSplit '/' cidrRange).headD []) = none →
      isInCIDRRange address cidrRange =
        some ⟨false, some msgInvalidRangeAddress⟩) ∧
    (∀ r, isInCIDRRange address cidrRange = some r → r.error ≠ none →
      r.inRange = false) := by
  refine ⟨?_, ?_, ?_, ?_, ?_⟩
  · intro h1
    simp only [isInCIDRRange]
    rw [if_pos h1]
  · intro pt hpt hptne hbad
    simp only [isInCIDRRange]
    rw [hpt, if_neg hptne]
    rcases hbad with hnone | ⟨p, hsome, hout⟩
    · rw [hnone]
    · rw [hsome]
      dsimp only
      rw [if_pos hout]
  · intro pt p hpt hptne hparse hp0 hp128 heaNone
    simp only [isInCIDRRange]
    rw [hpt, if_neg hptne, hparse]
    dsimp only
    rw [if_neg (by omega : ¬ (p < 0 ∨ 128 < p)), heaNone]
  · intro pt p ea hpt hptne hparse hp0 hp128 heaSome herNone
    simp only [isInCIDRRange]
    rw [hpt, if_neg hptne, hparse]
    dsimp only
    rw [if_neg (by omega : ¬ (p < 0 ∨ 128 < p)), heaSome, herNone]
  · intro r hr herr
    revert hr
    simp only [isInCIDRRange]
    by_cases h1 : ((jsSplit '/' cidrRange).get? 1).getD [] = []
    · rw [if_pos h1]
      intro hr
      obtain rfl : ({ inRange := false, error := some msgInvalidCIDR } : RangeResult) = r :=
        Option.some_inj.mp hr
      rfl
    · rw [if_neg h1]
      cases hp : jsParseInt10 (((jsSplit '/' cidrRange).get? 1).getD []) with
      | none =>
        intro hr
        obtain rfl : ({ inRange := false, error := some msgPrefixRange } : RangeResult) = r :=
          Option.some_inj.mp hr
        rfl
      | some p =>
        dsimp only
        by_cases h2 : p < 0 ∨ 128 < p
        · rw [if_pos h2]
          intro hr
          obtain rfl : ({ inRange := false, error := some msgPrefixRange } : RangeResult) = r :=
            Option.some_inj.mp hr
          rfl
        · rw [if_neg h2]
          cases hea : expandIPv6 address with
          | none =>
            intro hr
            obtain rfl : ({ inRange := false, error := some msgInvalidAddress } : RangeResult) = r :=
              Option.some_inj.mp hr
            rfl
          | some ea =>
            cases her : expandIPv6 ((jsSplit '/' cidrRange).headD []) with
            | none =>
              intro hr
              obtain rfl :
                  ({ inRange := false, error := some msgInvalidRangeAddress } : RangeResult) = r :=
                Option.some_inj.mp hr
              rfl
            | some er =>
              obtain ⟨n1, hn1⟩ :=
                getNetworkAddress_some ea p.toNat (expandIPv6_valid _ _ hea)
              obtain ⟨n2, hn2⟩ :=
                getNetworkAddress_some er p.toNat (expandIPv6_valid _ _ her)
              dsimp only
              rw [hn1, hn2]
              intro hr
              obtain rfl :
                  ({ inRange := decide (n1 = n2), error := none } : RangeResult) = r :=
                Option.some_inj.mp hr
              exact absurd rfl herr

theorem C6_witness :
    isInCIDRRange (jstr "::1") (jstr "abc") =
      some ⟨false, some msgInvalidCIDR⟩ ∧
    isInCIDRRange (jstr "::1") (jstr "::1/xx") =
      some ⟨false, some msgPrefixRange⟩ ∧
    isInCIDRRange (jstr "::1") (jstr "::1/129") =
      some ⟨false, some msgPrefixRange⟩ ∧
    isInCIDRRange (jstr "zzz") (jstr "::/32") =
      some ⟨false, some msgInvalidAddress⟩ ∧
    isInCIDRRange (jstr "::1") (jstr "zzz/32") =
      some ⟨false, some msgInvalidRangeAddress⟩ :=
  ⟨(C6_error_behaviour (jstr "::1") (jstr "abc")).1 (by decide),
   (C6_error_behaviour (jstr "::1") (jstr "::1/xx")).2.1 (jstr "xx") (by decide)
     (by decide) (Or.inl (by decide)),
   (C6_error_behaviour (jstr "::1") (jstr "::1/129")).2.1 (jstr "129") (by decide)
     (by decide) (Or.inr ⟨129, by decide, Or.inr (by decide)⟩),
   (C6_error_behaviour (jstr "zzz") (jstr "::/32")).2.2.1 (jstr "32") 32 (by decide)
     (by decide) (by decide) (by decide) (by decide) (by decide),
   (C6_error_behaviour (jstr "::1") (jstr "zzz/32")).2.2.2.1 (jstr "32") 32
     (jstr "0000:0000:0000:0000:0000:0000:0000:0001") (by decide) (by decide)
     (by decide) (by decide) (by decide) (by decide) (by decide)⟩

/-- C6 counterexample: for the CIDR text "::1/" the prefix segment is empty,
so it does not parse as an integer in [0,128], yet the reported error is the
invalid-CIDR-notation message and not the prefix-range message the claim
asserts for every prefix that fails to parse. -/
theorem C6_counterexample :
    jsParseInt10 (((jsSplit '/' (jstr "::1/")).get? 1).getD []) = none ∧
    isInCIDRRange (jstr "::1") (jstr "::1/") =
      some ⟨false, some msgInvalidCIDR⟩ ∧
    msgInvalidCIDR ≠ msgPrefixRange := by decide

/-! ## Claim C10: extra "/" segments in the CIDR argument -/

/-- C10 (amended): isInRange uses only the first "/"-separated segment of
the CIDR argument as the range address and the second as the prefix; every
segment beyond the second is discarded, so the result equals the result on
the first two segments alone.  (A membership result follows only when those
two segments are themselves valid; an empty or malformed second segment
still produces the corresponding error result.) -/
theorem C10_extra_slash_segments (address s0 s1 rest : JStr)
    (h0 : '/' ∉ s0) (h1 : '/' ∉ s1) :
    isInCIDRRange address (s0 ++ '/' :: (s1 ++ '/' :: rest)) =
      isInCIDRRange address (s0 ++ '/' :: s1) := by
  have e1 : jsSplit '/' (s0 ++ '/' :: (s1 ++ '/' :: rest)) =
      s0 :: s1 :: jsSplit '/' rest := by
    rw [jsSplit_append '/' s0 _ h0]
    have i1 : jsSplit '/' ('/' :: (s1 ++ '/' :: rest)) =
        [] :: jsSplit '/' (s1 ++ '/' :: rest) := by simp [jsSplit]
    rw [i1, jsSplit_append '/' s1 _ h1]
    have i2 : jsSplit '/' ('/' :: rest) = [] :: jsSplit '/' rest := by
      simp [jsSplit]
    rw [i2]
    cases h : jsSplit '/' rest with
    | nil => exact absurd h (jsSplit_ne_nil '/' rest)
    | cons x xs => simp [glueHead]
  have e2 : jsSplit '/' (s0 ++ '/' :: s1) = [s0, s1] := by
    rw [jsSplit_append '/' s0 _ h0]
    have i1 : jsSplit '/' ('/' :: s1) = [] :: jsSplit '/' s1 := by simp [jsSplit]
    rw [i1, jsSplit_single '/' s1 h1]
    simp [glueHead]
  simp only [isInCIDRRange, e1, e2, List.headD_cons, List.get?_cons_succ,
    List.get?_cons_zero, Option.getD_some]

theorem C10_witness :
    isInCIDRRange (jstr "2001:db8::1") (jstr "2001:db8::/32/64") =
      isInCIDRRange (jstr "2001:db8::1") (jstr "2001:db8::/32") ∧
    isInCIDRRange (jstr "2001:db8::1") (jstr "2001:db8::/32/64") =
      some ⟨true, none⟩ := by
  constructor
  · have hs : jstr "2001:db8::/32/64" =
        jstr "2001:db8::" ++ '/' :: (jstr "32" ++ '/' :: jstr "64") := by decide
    have hs2 : jstr "2001:db8::/32" = jstr "2001:db8::" ++ '/' :: jstr "32" := by
      decide
    rw [hs, hs2]
    exact C10_extra_slash_segments (jstr "2001:db8::1") (jstr "2001:db8::")
      (jstr "32") (jstr "64") (by decide) (by decide)
  · decide

/-- C10 counterexample: the CIDR text "::1//5" contains two "/" separators,
yet isInRange returns the invalid-CIDR-notation error and not a membership
result, because the second segment is empty. -/
theorem C10_counterexample :
    (jstr "::1//5").count '/' = 2 ∧
    isInCIDRRange (jstr "::1") (jstr "::1//5") =
      some ⟨false, some msgInvalidCIDR⟩ := by decide

/-! ## Claim C7: getTotalAddresses -/

/-- C7: for every prefix length p in [0,128], totalAddresses p is the exact
decimal string of 2^(128-p) whenever that value is at most 1,000,000, and
the literal string 2^hostBits with hostBits = 128 - p whenever it exceeds
1,000,000. -/
theorem C7_totalAddresses (p : Nat) (_hp : p ≤ 128) :
    getTotalAddresses p =
      if 2 ^ (128 - p) ≤ 1000000 then natToDec (2 ^ (128 - p))
      else '2' :: '^' :: natToDec (128 - p) := by
  simp only [getTotalAddresses, Nat.one_shiftLeft]
  by_cases h : 2 ^ (128 - p) ≤ 1000000
  · rw [if_neg (by omega), if_pos h]
  · rw [if_pos (by omega), if_neg h]

theorem C7_witness :
    getTotalAddresses 64 = jstr "2^64" ∧
    getTotalAddresses 128 = jstr "1" ∧
    getTotalAddresses 120 = jstr "256" ∧
    getTotalAddresses 64 =
      (if 2 ^ (128 - 64) ≤ 1000000 then natToDec (2 ^ (128 - 64))
       else '2' :: '^' :: natToDec (128 - 64)) :=
  ⟨by decide, by decide, by decide, C7_totalAddresses 64 (by decide)⟩

/-! ## Claim C1: malformed group structure in expandIPv6 -/

/-- C1: evaluation of expandIPv6 at the claim's failing inputs.  The triple
colon of "2001:db8:::1" splits into complete left part "2001:db8" and right
part ":1"; the right part contributes an empty group, the empty group passes
the zero-to-four-repetitions hexadecimal regex and is padded to "0000", so
the function returns a valid Address instead of the null required by the
claim and by the specification's MalformedAddress test.  Stray lone leading
and trailing colons are accepted the same way. -/
theorem C1_expandIPv6_accepts_malformed :
    expandIPv6 (jstr "2001:db8:::1") =
      some (jstr "2001:0db8:0000:0000:0000:0000:0000:0001") ∧
    expandIPv6 (jstr ":1:2:3:4:5:6:7") =
      some (jstr "0000:0001:0002:0003:0004:0005:0006:0007") ∧
    expandIPv6 (jstr "1:2:3:4:5:6:7:") =
      some (jstr "0001:0002:0003:0004:0005:0006:0007:0000") := by decide

/-! ## Claim C2: compression elides the longest earliest zero run -/

theorem scanStep_eq (st : Nat × Int × Nat × Int × Nat) (g : JStr) :
    scanStep st g = scanStepB st (decide (g = ['0'])) := by
  obtain ⟨i, ls, ll, cs, cl⟩ := st
  by_cases hg : g = ['0'] <;> simp [scanStep, scanStepB, hg]

theorem runScan_eq (S : List JStr) : runScan S = runScanB (zeroPattern S) := by
  have hfun : scanStep = fun st g => scanStepB st (decide (g = ['0'])) :=
    funext fun st => funext fun g => scanStep_eq st g
  unfold runScan runScanB zeroPattern
  rw [List.foldl_map, hfun]

set_option synthInstance.maxSize 4000 in
theorem scanAgrees_all :
    ∀ b1 b2 b3 b4 b5 b6 b7 b8 : Bool,
      scanAgreesAt [b1, b2, b3, b4, b5, b6, b7, b8] := by decide

theorem exists_eight_of_length {α : Type} (l : List α) (hl : l.length = 8) :
    ∃ a1 a2 a3 a4 a5 a6 a7 a8, l = [a1, a2, a3, a4, a5, a6, a7, a8] := by
  rcases l with _ | ⟨a1, l⟩
  · simp at hl
  rcases l with _ | ⟨a2, l⟩
  · simp at hl
  rcases l with _ | ⟨a3, l⟩
  · simp at hl
  rcases l with _ | ⟨a4, l⟩
  · simp at hl
  rcases l with _ | ⟨a5, l⟩
  · simp at hl
  rcases l with _ | ⟨a6, l⟩
  · simp at hl
  rcases l with _ | ⟨a7, l⟩
  · simp at hl
  rcases l with _ | ⟨a8, l⟩
  · simp at hl
  rcases l with _ | ⟨a9, l⟩
  · exact ⟨a1, a2, a3, a4, a5, a6, a7, a8, rfl⟩
  · simp at hl

theorem scanAgrees_of_length8 (bs : List Bool) (h : bs.length = 8) :
    scanAgreesAt bs := by
  obtain ⟨b1, b2, b3, b4, b5, b6, b7, b8, rfl⟩ := exists_eight_of_length bs h
  exact scanAgrees_all b1 b2 b3 b4 b5 b6 b7 b8

theorem compressIPv6_eq_spec (a : JStr) (h8 : (jsSplit ':' a).length = 8) :
    compressIPv6 a = compressSpec ((jsSplit ':' a).map stripLeadingZeros) := by
  simp only [compressIPv6, compressSpec]
  generalize hS : (jsSplit ':' a).map stripLeadingZeros = S
  have hSlen : S.length = 8 := by rw [← hS, List.length_map]; exact h8
  have hbslen : (zeroPattern S).length = 8 := by
    rw [zeroPattern, List.length_map, hSlen]
  obtain ⟨hA, hB, -, -⟩ := scanAgrees_of_length8 _ hbslen
  have hscan : runScan S = runScanB (zeroPattern S) := runScan_eq S
  by_cases hge2 : 2 ≤ (specBest (zeroPattern S)).2
  · have h1 : 1 < (runScan S).2 := by rw [hscan, hA]; omega
    have hstart : (runScan S).1 = ((specBest (zeroPattern S)).1 : Int) := by
      rw [hscan]; exact hB hge2
    have hlen2 : (runScan S).2 = (specBest (zeroPattern S)).2 := by
      rw [hscan, hA]
    rw [if_pos h1, if_pos hge2]
    simp only [elideAt]
    rw [hstart, hlen2, Int.toNat_ofNat]
  · have h1 : ¬ 1 < (runScan S).2 := by rw [hscan, hA]; omega
    rw [if_neg h1, if_neg hge2]

/-- C2: for every expanded 8-group address, compress computes exactly the
specification's compression: the longest contiguous run of zero groups,
ties broken by earliest start index, is elided when its length is at least
2 (so a single isolated zero group is never replaced by "::"), and when no
run of length at least 2 exists the 8 simplified groups are joined with ":"
unchanged; moreover the chosen run really is a longest run with the
earliest start among runs of maximal length. -/
theorem C2_compress_longest_run (a : JStr) (h : isExpandedAddress a = true) :
    compressIPv6 a = compressSpec ((jsSplit ':' a).map stripLeadingZeros) ∧
    bestRunCorrect (zeroPattern ((jsSplit ':' a).map stripLeadingZeros)) := by
  obtain ⟨hlen, -⟩ := (isExpandedAddress_iff a).mp h
  have hbslen : (zeroPattern ((jsSplit ':' a).map stripLeadingZeros)).length = 8 := by
    rw [zeroPattern, List.length_map, List.length_map, hlen]
  obtain ⟨-, -, hC, hD⟩ := scanAgrees_of_length8 _ hbslen
  refine ⟨compressIPv6_eq_spec a hlen, ?_, ?_⟩
  · intro hge2
    obtain ⟨hrun, hle⟩ := hC hge2
    exact ⟨by omega, hle, hrun⟩
  · intro s l hrun
    obtain ⟨hl1, hsl, hall⟩ := hrun
    have hs9 : s < 9 := by rw [hbslen] at hsl; omega
    have hl9 : l < 9 := by rw [hbslen] at hsl; omega
    exact hD s hs9 l hl9 hl1 hsl hall

theorem C2_witness :
    isExpandedAddress (jstr "2001:0db8:0000:0001:0000:0000:0000:0001") = true ∧
    (compressIPv6 (jstr "2001:0db8:0000:0001:0000:0000:0000:0001") =
      compressSpec ((jsSplit ':'
        (jstr "2001:0db8:0000:0001:0000:0000:0000:0001")).map stripLeadingZeros) ∧
    bestRunCorrect (zeroPattern ((jsSplit ':'
      (jstr "2001:0db8:0000:0001:0000:0000:0000:0001")).map stripLeadingZeros))) :=
  ⟨by decide, C2_compress_longest_run _ (by decide)⟩
